import Mathlib

/-!
# Verification oracle: decision engine and attestation pipeline

Shallow embedding of the verification-decision engine and the attestation
construction of the verification-oracle service:

* `src/verification_provider.rs` — the verification-case data model, the
  uniqueness decision (`User::is_verified_uniqueness`), the KYC status
  resolution (`User::get_kyc_status`), and the decision part of
  `FractalClient::verify`;
* `src/main.rs` — the attestation payload `VerifiedAccountToken`, its borsh
  binary encoding, and `create_verified_account_response` (encode, sign,
  self-verify, assemble);
* `src/utils.rs` — the level-tag deserialization helper
  `de_strings_joined_by_plus`.

Modelling conventions:

* Rust `DateTime<Utc>` timestamps are modelled as `Int` instants; the only
  operation the code performs on them is total-order comparison (`cmp`).
* Rust `String`s that flow into the borsh encoder are modelled as their
  UTF-8 byte sequences (`List Nat`, each element a byte); the borsh length
  prefix counts bytes, so this is the level at which the encoder operates.
* `Vec::sort_by` is a stable sort; it is modelled by the stable insertion
  sort `List.insertionSort` with the same comparator.
* The in-place mutation of `self.verification_cases` performed by
  `get_kyc_status` (`&mut self`) is modelled by returning the updated
  `User` alongside the status.
* Network I/O (`fetch_user`), base64 transport encoding, and the ed25519
  primitives are external collaborators: `verify` is modelled as a function
  of the fetch result, the response carries raw bytes, and the signing
  primitives are parameters of `create_verified_account_response`.
-/

namespace VerificationOracle

/-! ## Data model (`src/verification_provider.rs`) -/

/-- `VerificationLevel` from `verification_provider.rs`: the eight known
verification-level tags, deserialized lowercase. -/
inductive VerificationLevel where
  | uniqueness
  | basic
  | plus
  | liveness
  | selfie
  | sow
  | telegram
  | twitter
deriving DecidableEq, Repr

/-- `VerificationStatus` from `verification_provider.rs`: lifecycle status of
a verification case. -/
inductive VerificationStatus where
  | pending
  | contacted
  | done
deriving DecidableEq, Repr

/-- `CredentialStatus` from `verification_provider.rs`: credential outcome of
a verification case. -/
inductive CredentialStatus where
  | pending
  | approved
  | rejected
deriving DecidableEq, Repr

/-- `VerificationDetails` from `verification_provider.rs`: the details block;
the code only reads the `liveness` boolean. -/
structure VerificationDetails where
  liveness : Bool
deriving DecidableEq, Repr

/-- `VerificationCase` from `verification_provider.rs`. `created_at` and
`updated_at` are `DateTime<Utc>` instants, modelled as `Int`. -/
structure VerificationCase where
  id : String
  created_at : Int
  updated_at : Int
  level : List VerificationLevel
  status : VerificationStatus
  credential : CredentialStatus
  details : VerificationDetails
deriving DecidableEq, Repr

/-- `KycStatus` from `verification_provider.rs`. -/
inductive KycStatus where
  | unavailable
  | pending
  | approved
  | rejected
deriving DecidableEq, Repr

/-- `ExternalAccountId` from `main.rs`: a hexadecimal string; modelled as its
UTF-8 byte sequence. -/
abbrev ExternalAccountId := List Nat

/-- `Email` from `verification_provider.rs`. -/
structure Email where
  address : String
deriving DecidableEq, Repr

/-- `Phone` from `verification_provider.rs`. -/
structure Phone where
  number : String
deriving DecidableEq, Repr

/-- `Wallet` from `verification_provider.rs`. -/
structure Wallet where
  id : String
  address : String
  currency : String
deriving DecidableEq, Repr

/-- `User` from `verification_provider.rs`: the profile fetched from the
identity provider. -/
structure User where
  uid : ExternalAccountId
  emails : List Email
  phones : List Phone
  wallets : List Wallet
  verification_cases : List VerificationCase
deriving DecidableEq, Repr

/-- `VerifiedUser` from `verification_provider.rs`. -/
structure VerifiedUser where
  user_id : ExternalAccountId
  kyc_status : KycStatus
deriving DecidableEq, Repr

/-- `AppError` from `error.rs`, together with the business-error variants the
code in `verification_provider.rs` and `main.rs` constructs
(`UserUniquenessNotVerified`, `SuspiciousUser`, `NotAllowedNamedSubAccount`). -/
inductive AppError where
  | SigningError
  | UserNotVerified
  | UserUniquenessNotVerified
  | SuspiciousUser
  | NotAllowedNamedSubAccount (account : String)
  | TimeoutError (msg : String)
  | ReqwestError
  | Generic (msg : String)
deriving DecidableEq, Repr

/-! ## The evaluator (`User::is_verified_uniqueness`, `User::get_kyc_status`) -/

/-- The comparator of `get_kyc_status`:
`sort_by(|a, b| b.updated_at.cmp(&a.updated_at))`, i.e. descending by
last-update time. -/
def byRecency (a b : VerificationCase) : Prop :=
  b.updated_at ≤ a.updated_at

instance : DecidableRel byRecency := fun a b =>
  inferInstanceAs (Decidable (b.updated_at ≤ a.updated_at))

instance : IsTotal VerificationCase byRecency :=
  ⟨fun a b => le_total b.updated_at a.updated_at⟩

instance : IsTrans VerificationCase byRecency :=
  ⟨fun _ _ _ h1 h2 => le_trans h2 h1⟩

/-- `User::is_verified_uniqueness` from `verification_provider.rs`: some case
has status `done`, credential `approved`, and the `uniqueness` tag. -/
def User.is_verified_uniqueness (u : User) : Bool :=
  u.verification_cases.any fun c =>
    c.status == VerificationStatus.done &&
    c.credential == CredentialStatus.approved &&
    c.level.any (fun l => l == VerificationLevel.uniqueness)

/-- The `filter_map` body of `get_kyc_status`: `None` unless the level-tag
set contains both `basic` and `liveness`; then the match on
`(credential, details.liveness)` mapping approved/pending/rejected with
`liveness: true` to a status and `liveness: false` to `None`. -/
def kycCaseStatus (c : VerificationCase) : Option KycStatus :=
  if !(c.level.any (fun l => l == VerificationLevel.basic) &&
       c.level.any (fun l => l == VerificationLevel.liveness)) then
    none
  else
    match c.credential, c.details.liveness with
    | CredentialStatus.approved, true => some KycStatus.approved
    | CredentialStatus.pending, true => some KycStatus.pending
    | CredentialStatus.rejected, true => some KycStatus.rejected
    | _, false => none

/-- The credential-outcome-to-KYC-status mapping applied by the
`filter_map` arms of `get_kyc_status`:
approved ↦ Approved, pending ↦ Pending, rejected ↦ Rejected. -/
def credToKyc : CredentialStatus → KycStatus
  | CredentialStatus.pending => KycStatus.pending
  | CredentialStatus.approved => KycStatus.approved
  | CredentialStatus.rejected => KycStatus.rejected

/-- `User::get_kyc_status` from `verification_provider.rs`. The Rust method
takes `&mut self` and stably sorts `self.verification_cases` in place,
descending by `updated_at`; this is modelled by returning the updated `User`
next to the computed status. Then it filter-maps the sorted cases through
`kycCaseStatus`, returns `Approved` if any mapped status is approved, and
otherwise the first (most recent) mapped status, defaulting to
`Unavailable`. -/
def User.get_kyc_status (u : User) : KycStatus × User :=
  let sorted := List.insertionSort byRecency u.verification_cases
  let cases_status := sorted.filterMap kycCaseStatus
  let st :=
    if cases_status.any (fun s => s == KycStatus.approved) then
      KycStatus.approved
    else
      cases_status.headD KycStatus.unavailable
  (st, { u with verification_cases := sorted })

/-- The decision logic of `FractalClient::verify` from
`verification_provider.rs`, as a function of the `fetch_user` outcome: on a
fetched user, succeed with the evaluated `VerifiedUser` when uniqueness is
verified, otherwise fail with `UserUniquenessNotVerified`; propagate fetch
errors. -/
def FractalClient.verify (fetched : Except AppError User) :
    Except AppError VerifiedUser :=
  match fetched with
  | Except.ok user =>
    if user.is_verified_uniqueness then
      Except.ok
        { kyc_status := user.get_kyc_status.1
          user_id := user.get_kyc_status.2.uid }
    else
      Except.error AppError.UserUniquenessNotVerified
  | Except.error e => Except.error e

/-! ## Borsh canonical encoding of the attestation payload (`src/main.rs`)

`VerifiedAccountToken` derives `BorshSerialize`/`BorshDeserialize`.  Borsh
serializes fields in declaration order: strings as a `u32` little-endian
byte-length prefix followed by the UTF-8 bytes, `u64` as 8 little-endian
bytes, `bool` as one byte (`1`/`0`, any other byte rejected on read), and
`try_from_slice` rejects any input not consumed exactly. -/

/-- `near_sdk::AccountId` as it enters the borsh encoder: the UTF-8 bytes of
the NEAR account-id string. -/
abbrev AccountId := List Nat

/-- `VerifiedAccountToken` from `main.rs`: the signed attestation payload. -/
structure VerifiedAccountToken where
  claimer : AccountId
  ext_account : ExternalAccountId
  timestamp : Nat
  verified_kyc : Bool
deriving DecidableEq, Repr

/-- Borsh `u32` little-endian encoding (4 bytes). -/
def u32le (n : Nat) : List Nat :=
  [n % 256, n / 256 % 256, n / 65536 % 256, n / 16777216 % 256]

/-- Borsh `u64` little-endian encoding (8 bytes). -/
def u64le (n : Nat) : List Nat :=
  [n % 256, n / 256 % 256, n / 65536 % 256, n / 16777216 % 256,
   n / 4294967296 % 256, n / 1099511627776 % 256,
   n / 281474976710656 % 256, n / 72057594037927936 % 256]

/-- Borsh string encoding: `u32` byte-length prefix, then the bytes. -/
def encodeBytes (bs : List Nat) : List Nat :=
  u32le bs.length ++ bs

/-- Borsh `bool` encoding: a single byte, `1` for true and `0` for false. -/
def encodeBool (b : Bool) : List Nat :=
  [if b then 1 else 0]

/-- `VerifiedAccountToken::try_to_vec` (derived `BorshSerialize`): fields in
declaration order. -/
def VerifiedAccountToken.try_to_vec (t : VerifiedAccountToken) : List Nat :=
  encodeBytes t.claimer ++ encodeBytes t.ext_account ++
    u64le t.timestamp ++ encodeBool t.verified_kyc

/-- Borsh `u32` reader: consumes exactly 4 bytes. -/
def readU32 : List Nat → Option (Nat × List Nat)
  | b0 :: b1 :: b2 :: b3 :: rest =>
    some (b0 + 256 * b1 + 65536 * b2 + 16777216 * b3, rest)
  | _ => none

/-- Borsh `u64` reader: consumes exactly 8 bytes. -/
def readU64 : List Nat → Option (Nat × List Nat)
  | b0 :: b1 :: b2 :: b3 :: b4 :: b5 :: b6 :: b7 :: rest =>
    some (b0 + 256 * b1 + 65536 * b2 + 16777216 * b3 +
          4294967296 * b4 + 1099511627776 * b5 +
          281474976710656 * b6 + 72057594037927936 * b7, rest)
  | _ => none

/-- Reads exactly `n` bytes, failing on a shorter input. -/
def readChunk : Nat → List Nat → Option (List Nat × List Nat)
  | 0, bs => some ([], bs)
  | _ + 1, [] => none
  | n + 1, b :: bs =>
    match readChunk n bs with
    | some (xs, rest) => some (b :: xs, rest)
    | none => none

/-- Borsh string reader: `u32` length prefix, then that many bytes. -/
def readBytes (bs : List Nat) : Option (List Nat × List Nat) :=
  (readU32 bs).bind fun p => readChunk p.1 p.2

/-- Borsh `bool` reader: one byte, `0 ↦ false`, `1 ↦ true`, anything else a
format error. -/
def readBool : List Nat → Option (Bool × List Nat)
  | 0 :: rest => some (false, rest)
  | 1 :: rest => some (true, rest)
  | _ => none

/-- The derived `BorshDeserialize` field readers of `VerifiedAccountToken`,
in declaration order, returning the unconsumed remainder. -/
def readToken (bs : List Nat) : Option (VerifiedAccountToken × List Nat) :=
  (readBytes bs).bind fun p1 =>
  (readBytes p1.2).bind fun p2 =>
  (readU64 p2.2).bind fun p3 =>
  (readBool p3.2).bind fun p4 =>
  some ({ claimer := p1.1, ext_account := p2.1,
          timestamp := p3.1, verified_kyc := p4.1 }, p4.2)

/-- `VerifiedAccountToken::try_from_slice`: deserializes and rejects the
input unless it is consumed exactly. -/
def VerifiedAccountToken.try_from_slice (bs : List Nat) :
    Option VerifiedAccountToken :=
  match readToken bs with
  | some (t, []) => some t
  | _ => none

/-- A payload representable by the Rust `VerifiedAccountToken`: the string
fields are byte sequences of borsh-encodable length and the timestamp fits
in `u64`. -/
def ValidToken (t : VerifiedAccountToken) : Prop :=
  t.claimer.length < 4294967296 ∧ (∀ b ∈ t.claimer, b < 256) ∧
  t.ext_account.length < 4294967296 ∧ (∀ b ∈ t.ext_account, b < 256) ∧
  t.timestamp < 18446744073709551616

instance (t : VerifiedAccountToken) : Decidable (ValidToken t) := by
  unfold ValidToken
  infer_instance

/-! ## Attestation construction (`create_verified_account_response`) -/

/-- `SignedResponse` from `main.rs`.  The Rust struct carries the payload and
the signature base64-encoded for transport; the base64 step is pure external
formatting, so the fields here hold the raw bytes it encodes. -/
structure SignedResponse where
  message : List Nat
  signature_ed25519 : List Nat
  kyc_status : KycStatus
deriving DecidableEq, Repr

/-- The `VerifiedAccountToken` literal built inside
`create_verified_account_response`: the claimant, the verified user's
external id, the current timestamp, and
`verified_kyc = (kyc_status == KycStatus::Approved)`. -/
def mkVerifiedAccountToken (claimer : AccountId) (verified_user : VerifiedUser)
    (now : Nat) : VerifiedAccountToken :=
  { claimer := claimer
    ext_account := verified_user.user_id
    timestamp := now
    verified_kyc := verified_user.kyc_status == KycStatus.approved }

/-- `create_verified_account_response` from `main.rs`.  The ed25519
primitives of `near_crypto` are external: `sign` produces a signature value,
`verifySig` checks it against the message and the signing key's public half,
and `ed25519Raw` extracts the raw 64-byte form when the signature is an
`ED25519` signature.  The wall-clock read `Utc::now().timestamp()` is the
explicit argument `now`.  The function borsh-encodes the payload, signs the
bytes, immediately re-verifies the signature over the same bytes (returning
`SigningError` on failure), requires the raw ed25519 form (returning
`SigningError` otherwise), and assembles the response with the cleartext KYC
status. -/
def create_verified_account_response {Sig : Type}
    (sign : List Nat → Sig) (verifySig : List Nat → Sig → Bool)
    (ed25519Raw : Sig → Option (List Nat))
    (claimer : AccountId) (verified_user : VerifiedUser) (now : Nat) :
    Except AppError SignedResponse :=
  let raw_message := (mkVerifiedAccountToken claimer verified_user now).try_to_vec
  let signature := sign raw_message
  if !(verifySig raw_message signature) then
    Except.error AppError.SigningError
  else
    match ed25519Raw signature with
    | some raw_signature_ed25519 =>
      Except.ok
        { message := raw_message
          signature_ed25519 := raw_signature_ed25519
          kyc_status := verified_user.kyc_status }
    | none => Except.error AppError.SigningError

/-! ## Level-tag deserialization (`src/utils.rs`) -/

/-- Rust `str::split('+')`: the (possibly empty) chunks of the character
sequence between occurrences of `'+'`. -/
def splitPlus : List Char → List (List Char)
  | [] => [[]]
  | c :: rest =>
    let r := splitPlus rest
    if c = '+' then [] :: r
    else
      match r with
      | t :: ts => (c :: t) :: ts
      | [] => [[c]]

/-- Serde deserialization of one `VerificationLevel` token
(`rename_all = "lowercase"`): the eight known lowercase tag names; anything
else fails (and is dropped by the caller's `filter_map`). -/
def VerificationLevel.fromStr (s : String) : Option VerificationLevel :=
  if s = "uniqueness" then some VerificationLevel.uniqueness
  else if s = "basic" then some VerificationLevel.basic
  else if s = "plus" then some VerificationLevel.plus
  else if s = "liveness" then some VerificationLevel.liveness
  else if s = "selfie" then some VerificationLevel.selfie
  else if s = "sow" then some VerificationLevel.sow
  else if s = "telegram" then some VerificationLevel.telegram
  else if s = "twitter" then some VerificationLevel.twitter
  else none

/-- `de_strings_joined_by_plus` from `utils.rs`, at `T = VerificationLevel`:
splits the level string on `'+'`, deserializes each token, drops the
failures (`filter_map(.. .ok())`), and always returns `Ok`. -/
def de_strings_joined_by_plus (s : String) :
    Except String (List VerificationLevel) :=
  Except.ok ((splitPlus s.data).filterMap fun t =>
    VerificationLevel.fromStr (String.mk t))

/-! ## Concrete sample inputs for closed instances -/

/-- Builds a verification case with equal creation and update instants, for
concrete examples. -/
def sampleCase (t : Int) (lvl : List VerificationLevel)
    (st : VerificationStatus) (cr : CredentialStatus) (lv : Bool) :
    VerificationCase :=
  { id := "case", created_at := t, updated_at := t, level := lvl, status := st,
    credential := cr, details := { liveness := lv } }

/-- Builds a profile around a given case list, for concrete examples. -/
def sampleUser (cs : List VerificationCase) : User :=
  { uid := [0], emails := [], phones := [], wallets := [],
    verification_cases := cs }

/-! ## Helper lemmas -/

/-- A mapped status is always the image of the case's credential outcome
under `credToKyc`. -/
theorem kycCaseStatus_some_eq {c : VerificationCase} {s : KycStatus}
    (h : kycCaseStatus c = some s) : s = credToKyc c.credential := by
  unfold kycCaseStatus at h
  split at h
  · cases h
  · split at h <;> simp_all [credToKyc]

/-- Decomposition of a list by the first element its `filterMap` keeps. -/
theorem filterMap_eq_cons_split {α β : Type} (f : α → Option β) :
    ∀ (l : List α) (y : β) (ys : List β), l.filterMap f = y :: ys →
      ∃ l1 c l2, l = l1 ++ c :: l2 ∧ f c = some y ∧ ∀ x ∈ l1, f x = none
  | [], _, _, h => by simp at h
  | a :: l, y, ys, h => by
    cases ha : f a with
    | none =>
      rw [List.filterMap_cons_none ha] at h
      obtain ⟨l1, c, l2, rfl, hc, hnone⟩ := filterMap_eq_cons_split f l y ys h
      refine ⟨a :: l1, c, l2, rfl, hc, ?_⟩
      intro x hx
      rcases List.mem_cons.1 hx with rfl | hx
      · exact ha
      · exact hnone x hx
    | some b =>
      rw [List.filterMap_cons_some ha] at h
      injection h with h1 h2
      subst h1
      exact ⟨[], a, l, rfl, ha, by simp⟩

/-- The result status of `get_kyc_status` is a function of the mapped
status sequence of the sorted case list. -/
theorem get_kyc_status_fst_congr {u v : User}
    (h : (List.insertionSort byRecency u.verification_cases).filterMap kycCaseStatus
       = (List.insertionSort byRecency v.verification_cases).filterMap kycCaseStatus) :
    u.get_kyc_status.1 = v.get_kyc_status.1 := by
  simp only [User.get_kyc_status, h]

/-! ## Claim theorems -/

/-- C1: for every collection of verification cases, if at least one case
passing the eligibility filter (level tags contain both `basic` and
`liveness`, details report `liveness = true`) has credential outcome
`approved`, then `get_kyc_status` returns `Approved` — regardless of the
last-update times of any other case. -/
theorem c1_approved_case_wins (u : User) (c : VerificationCase)
    (hmem : c ∈ u.verification_cases)
    (hbasic : VerificationLevel.basic ∈ c.level)
    (hlive : VerificationLevel.liveness ∈ c.level)
    (hdet : c.details.liveness = true)
    (hcred : c.credential = CredentialStatus.approved) :
    u.get_kyc_status.1 = KycStatus.approved := by
  have hb : c.level.any (fun l => l == VerificationLevel.basic) = true :=
    List.any_eq_true.2 ⟨_, hbasic, by simp⟩
  have hl : c.level.any (fun l => l == VerificationLevel.liveness) = true :=
    List.any_eq_true.2 ⟨_, hlive, by simp⟩
  have hc : kycCaseStatus c = some KycStatus.approved := by
    simp only [kycCaseStatus, hb, hl, Bool.and_self, Bool.not_true,
      Bool.false_eq_true, if_false, hcred, hdet]
  have hmem2 : c ∈ List.insertionSort byRecency u.verification_cases := by
    rw [List.mem_insertionSort]
    exact hmem
  have hany : ((List.insertionSort byRecency u.verification_cases).filterMap
      kycCaseStatus).any (fun s => s == KycStatus.approved) = true :=
    List.any_eq_true.2 ⟨_, List.mem_filterMap.2 ⟨c, hmem2, hc⟩, by simp⟩
  simp only [User.get_kyc_status, hany, if_true]

/-- Witness for C1: an old approved eligible case next to a more recent
rejected eligible case still yields `Approved`. -/
theorem c1_witness :
    (sampleUser [sampleCase 2 [VerificationLevel.basic, VerificationLevel.liveness]
        VerificationStatus.done CredentialStatus.rejected true,
      sampleCase 1 [VerificationLevel.basic, VerificationLevel.liveness]
        VerificationStatus.done CredentialStatus.approved true]).get_kyc_status.1 =
      KycStatus.approved :=
  c1_approved_case_wins _ (sampleCase 1 [VerificationLevel.basic, VerificationLevel.liveness]
      VerificationStatus.done CredentialStatus.approved true)
    (by decide) (by decide) (by decide) (by decide) (by decide)

/-- C3: `is_verified_uniqueness` returns true exactly when some case carries
the `uniqueness` tag with lifecycle status `done` and credential outcome
`approved`; when it returns false, `FractalClient::verify` fails with the
`UserUniquenessNotVerified` business error, producing no verified user. -/
theorem c3_uniqueness_gate (u : User) :
    (u.is_verified_uniqueness = true ↔
      ∃ c ∈ u.verification_cases,
        VerificationLevel.uniqueness ∈ c.level ∧
        c.status = VerificationStatus.done ∧
        c.credential = CredentialStatus.approved) ∧
    (u.is_verified_uniqueness = false →
      FractalClient.verify (Except.ok u) =
        Except.error AppError.UserUniquenessNotVerified) := by
  constructor
  · simp only [User.is_verified_uniqueness, List.any_eq_true, Bool.and_eq_true,
      beq_iff_eq]
    constructor
    · rintro ⟨c, hc, ⟨⟨hst, hcr⟩, l, hl, hlu⟩⟩
      exact ⟨c, hc, hlu ▸ hl, hst, hcr⟩
    · rintro ⟨c, hc, hl, hst, hcr⟩
      exact ⟨c, hc, ⟨⟨hst, hcr⟩, _, hl, rfl⟩⟩
  · intro h
    simp only [FractalClient.verify, h, Bool.false_eq_true, if_false]

/-- Witness for C3: a profile whose only case is `uniqueness`+`done`+
`approved` passes the gate, and one with a rejected uniqueness case makes
`verify` fail with the business error. -/
theorem c3_witness :
    (∃ c ∈ (sampleUser [sampleCase 1 [VerificationLevel.uniqueness]
        VerificationStatus.done CredentialStatus.approved false]).verification_cases,
      VerificationLevel.uniqueness ∈ c.level ∧
      c.status = VerificationStatus.done ∧
      c.credential = CredentialStatus.approved) ∧
    FractalClient.verify (Except.ok (sampleUser [sampleCase 1
        [VerificationLevel.uniqueness] VerificationStatus.done
        CredentialStatus.rejected false])) =
      Except.error AppError.UserUniquenessNotVerified :=
  ⟨(c3_uniqueness_gate _).1.mp (by decide),
   (c3_uniqueness_gate _).2 (by decide)⟩

/-- C5: the `verified_kyc` boolean of the attestation payload built by
`create_verified_account_response` is true exactly when the KYC status is
`Approved` (`Pending`, `Rejected` and `Unavailable` all encode `false`),
while the response returned on success carries the full KYC status in
cleartext. -/
theorem c5_kyc_boolean_collapse {Sig : Type}
    (sign : List Nat → Sig) (verifySig : List Nat → Sig → Bool)
    (ed25519Raw : Sig → Option (List Nat))
    (claimer : AccountId) (verified_user : VerifiedUser) (now : Nat) :
    ((mkVerifiedAccountToken claimer verified_user now).verified_kyc = true ↔
      verified_user.kyc_status = KycStatus.approved) ∧
    (∀ r, create_verified_account_response sign verifySig ed25519Raw
        claimer verified_user now = Except.ok r →
      r.kyc_status = verified_user.kyc_status ∧
      r.message = (mkVerifiedAccountToken claimer verified_user now).try_to_vec) := by
  constructor
  · simp [mkVerifiedAccountToken]
  · intro r hr
    unfold create_verified_account_response at hr
    by_cases hv : verifySig (mkVerifiedAccountToken claimer verified_user now).try_to_vec
        (sign (mkVerifiedAccountToken claimer verified_user now).try_to_vec)
    · simp only [hv, Bool.not_true, Bool.false_eq_true, if_false] at hr
      cases hraw : ed25519Raw (sign (mkVerifiedAccountToken claimer verified_user now).try_to_vec) with
      | some raws =>
        rw [hraw] at hr
        cases hr
        exact ⟨rfl, rfl⟩
      | none =>
        rw [hraw] at hr
        cases hr
    · simp only [hv, Bool.not_false, if_true] at hr
      cases hr

/-- Witness for C5: with a trivially succeeding signature scheme, a
`Pending` user's payload boolean is false and the response carries
`Pending` in cleartext. -/
theorem c5_witness :
    ¬((mkVerifiedAccountToken [1] ⟨[2], KycStatus.pending⟩ 5).verified_kyc = true) ∧
    ({ message := (mkVerifiedAccountToken [1] ⟨[2], KycStatus.pending⟩ 5).try_to_vec,
       signature_ed25519 := [7],
       kyc_status := KycStatus.pending } : SignedResponse).kyc_status =
      KycStatus.pending :=
  ⟨fun h => absurd ((c5_kyc_boolean_collapse (fun _ => ())
      (fun _ _ => true) (fun _ => some [7]) [1] ⟨[2], KycStatus.pending⟩ 5).1.mp h)
      (by decide),
   ((c5_kyc_boolean_collapse (fun _ => ()) (fun _ _ => true)
      (fun _ => some [7]) [1] ⟨[2], KycStatus.pending⟩ 5).2 _ rfl).1⟩

/-- C6: immediately after signing, `create_verified_account_response`
re-verifies the signature over the exact signed bytes; if that verification
fails, or the produced signature is not a raw ed25519 signature, the
function fails closed with `SigningError` and emits no signed response. -/
theorem c6_sign_self_verify {Sig : Type}
    (sign : List Nat → Sig) (verifySig : List Nat → Sig → Bool)
    (ed25519Raw : Sig → Option (List Nat))
    (claimer : AccountId) (verified_user : VerifiedUser) (now : Nat) :
    (verifySig (mkVerifiedAccountToken claimer verified_user now).try_to_vec
        (sign (mkVerifiedAccountToken claimer verified_user now).try_to_vec) = false →
      create_verified_account_response sign verifySig ed25519Raw
        claimer verified_user now = Except.error AppError.SigningError) ∧
    (ed25519Raw (sign (mkVerifiedAccountToken claimer verified_user now).try_to_vec) = none →
      create_verified_account_response sign verifySig ed25519Raw
        claimer verified_user now = Except.error AppError.SigningError) := by
  constructor
  · intro h
    unfold create_verified_account_response
    simp only [h, Bool.not_false, if_true]
  · intro h
    unfold create_verified_account_response
    by_cases hv : verifySig (mkVerifiedAccountToken claimer verified_user now).try_to_vec
        (sign (mkVerifiedAccountToken claimer verified_user now).try_to_vec)
    · simp only [hv, Bool.not_true, Bool.false_eq_true, if_false, h]
    · simp only [hv, Bool.not_false, if_true]

/-- Witness for C6: a scheme whose verification always fails makes the
response a `SigningError`. -/
theorem c6_witness :
    create_verified_account_response (fun _ => ())
      (fun _ _ => false) (fun _ => some [7]) [1] ⟨[2], KycStatus.approved⟩ 5 =
      Except.error AppError.SigningError :=
  (c6_sign_self_verify (fun _ => ()) (fun _ _ => false) (fun _ => some [7])
    [1] ⟨[2], KycStatus.approved⟩ 5).1 rfl

/-- C10: the level-tag deserializer is total — it returns `Ok` on every
input string — and when every `'+'`-separated token is unknown it returns
the empty tag set; a case with an empty tag set is ignored by both the
KYC filter and the per-case uniqueness predicate rather than rejected. -/
theorem c10_level_tags_total (s : String) :
    (∃ levels, de_strings_joined_by_plus s = Except.ok levels) ∧
    ((∀ t ∈ splitPlus s.data, VerificationLevel.fromStr (String.mk t) = none) →
      de_strings_joined_by_plus s = Except.ok [] ∧
      ∀ c : VerificationCase, c.level = [] →
        kycCaseStatus c = none ∧
        (c.status == VerificationStatus.done &&
         c.credential == CredentialStatus.approved &&
         c.level.any (fun l => l == VerificationLevel.uniqueness)) = false) := by
  refine ⟨⟨_, rfl⟩, fun h => ⟨?_, fun c hc => ⟨?_, ?_⟩⟩⟩
  · unfold de_strings_joined_by_plus
    rw [List.filterMap_eq_nil_iff.2 h]
  · simp [kycCaseStatus, hc]
  · simp [hc]

/-- Witness for C10: the level string `"foo+bar"` deserializes to the empty
tag set and such a case is invisible to both checks. -/
theorem c10_witness :
    de_strings_joined_by_plus "foo+bar" = Except.ok [] ∧
    kycCaseStatus (sampleCase 1 [] VerificationStatus.done
      CredentialStatus.approved true) = none :=
  ⟨((c10_level_tags_total "foo+bar").2 (by decide)).1,
   (((c10_level_tags_total "foo+bar").2 (by decide)).2 _ rfl).1⟩

/-- C2: when no case surviving the eligibility filter is approved, then if
some case survives the filter, `get_kyc_status` returns the mapped
credential status (via `credToKyc`) of a surviving case whose last-update
time is greatest among all surviving cases; and if no case survives, it
returns `Unavailable`. -/
theorem c2_most_recent_wins (u : User)
    (hnoapp : ∀ c ∈ u.verification_cases,
      kycCaseStatus c ≠ some KycStatus.approved) :
    ((∃ c ∈ u.verification_cases, (kycCaseStatus c).isSome) →
      ∃ c ∈ u.verification_cases,
        kycCaseStatus c = some u.get_kyc_status.1 ∧
        u.get_kyc_status.1 = credToKyc c.credential ∧
        ∀ c' ∈ u.verification_cases, (kycCaseStatus c').isSome →
          c'.updated_at ≤ c.updated_at) ∧
    ((∀ c ∈ u.verification_cases, kycCaseStatus c = none) →
      u.get_kyc_status.1 = KycStatus.unavailable) := by
  have hmemL : ∀ x, x ∈ List.insertionSort byRecency u.verification_cases ↔
      x ∈ u.verification_cases := fun x => List.mem_insertionSort byRecency
  have hany : ((List.insertionSort byRecency u.verification_cases).filterMap
      kycCaseStatus).any (fun s => s == KycStatus.approved) = false := by
    rw [List.any_eq_false]
    intro s hs
    obtain ⟨c, hcL, hc⟩ := List.mem_filterMap.1 hs
    have : s ≠ KycStatus.approved := fun he =>
      hnoapp c ((hmemL c).1 hcL) (he ▸ hc)
    simpa using this
  have hres : u.get_kyc_status.1 =
      ((List.insertionSort byRecency u.verification_cases).filterMap
        kycCaseStatus).headD KycStatus.unavailable := by
    simp only [User.get_kyc_status, hany, Bool.false_eq_true, if_false]
  constructor
  · rintro ⟨c0, hc0, hs0⟩
    obtain ⟨s0, hs0'⟩ := Option.isSome_iff_exists.1 hs0
    have hmemf : s0 ∈ (List.insertionSort byRecency
        u.verification_cases).filterMap kycCaseStatus :=
      List.mem_filterMap.2 ⟨c0, (hmemL c0).2 hc0, hs0'⟩
    cases hfm : (List.insertionSort byRecency u.verification_cases).filterMap
        kycCaseStatus with
    | nil => rw [hfm] at hmemf; cases hmemf
    | cons y ys =>
      obtain ⟨l1, c, l2, hsplit, hcy, hl1⟩ :=
        filterMap_eq_cons_split kycCaseStatus _ y ys hfm
      have hcmem : c ∈ u.verification_cases := by
        rw [← hmemL c, hsplit]
        simp
      have hresy : u.get_kyc_status.1 = y := by rw [hres, hfm]; rfl
      refine ⟨c, hcmem, by rw [hresy]; exact hcy, ?_, ?_⟩
      · rw [hresy]
        exact kycCaseStatus_some_eq hcy
      · intro c' hc' hs'
        have hc'L : c' ∈ l1 ++ c :: l2 := by rw [← hsplit]; exact (hmemL c').2 hc'
        rcases List.mem_append.1 hc'L with h1 | h2
        · rw [hl1 c' h1] at hs'
          cases hs'
        · rcases List.mem_cons.1 h2 with rfl | h2'
          · exact le_refl _
          · have hsorted : (l1 ++ c :: l2).Sorted byRecency := by
              rw [← hsplit]
              exact List.sorted_insertionSort byRecency u.verification_cases
            have := (List.pairwise_append.1 hsorted).2.1
            exact (List.pairwise_cons.1 this).1 c' h2'
  · intro hall
    rw [hres, List.filterMap_eq_nil_iff.2 fun c hc => hall c ((hmemL c).1 hc)]
    rfl

/-- Witness for C2: with an eligible rejected case on day 1 and an eligible
pending case on day 2, the theorem yields the most recent non-approved
status; and a caseless profile yields `Unavailable`. -/
theorem c2_witness :
    (∃ c ∈ (sampleUser
        [sampleCase 1 [VerificationLevel.basic, VerificationLevel.liveness]
          VerificationStatus.done CredentialStatus.rejected true,
         sampleCase 2 [VerificationLevel.basic, VerificationLevel.liveness]
          VerificationStatus.contacted CredentialStatus.pending true]).verification_cases,
      kycCaseStatus c = some ((sampleUser
        [sampleCase 1 [VerificationLevel.basic, VerificationLevel.liveness]
          VerificationStatus.done CredentialStatus.rejected true,
         sampleCase 2 [VerificationLevel.basic, VerificationLevel.liveness]
          VerificationStatus.contacted CredentialStatus.pending true]).get_kyc_status.1) ∧
      (sampleUser
        [sampleCase 1 [VerificationLevel.basic, VerificationLevel.liveness]
          VerificationStatus.done CredentialStatus.rejected true,
         sampleCase 2 [VerificationLevel.basic, VerificationLevel.liveness]
          VerificationStatus.contacted CredentialStatus.pending true]).get_kyc_status.1 =
        credToKyc c.credential ∧
      ∀ c' ∈ (sampleUser
        [sampleCase 1 [VerificationLevel.basic, VerificationLevel.liveness]
          VerificationStatus.done CredentialStatus.rejected true,
         sampleCase 2 [VerificationLevel.basic, VerificationLevel.liveness]
          VerificationStatus.contacted CredentialStatus.pending true]).verification_cases,
        (kycCaseStatus c').isSome → c'.updated_at ≤ c.updated_at) ∧
    (sampleUser []).get_kyc_status.1 = KycStatus.unavailable :=
  ⟨(c2_most_recent_wins _ (by decide)).1 (by decide),
   (c2_most_recent_wins (sampleUser []) (by decide)).2 (by decide)⟩

/-- Characterization of the cases the KYC `filter_map` drops. -/
theorem kycCaseStatus_eq_none_iff (c : VerificationCase) :
    kycCaseStatus c = none ↔
      ¬(VerificationLevel.basic ∈ c.level ∧ VerificationLevel.liveness ∈ c.level ∧
        c.details.liveness = true) := by
  rcases c with ⟨i, ca, ua, lvl, st, cr, ⟨lv⟩⟩
  unfold kycCaseStatus
  cases cr <;> cases lv <;>
    simp [List.any_eq_true]

/-! ### Stable sorting helper lemmas -/

theorem orderedInsert_eq_cons {α : Type} (r : α → α → Prop) [DecidableRel r]
    (x : α) : ∀ m : List α, (∀ y ∈ m, r x y) → List.orderedInsert r x m = x :: m
  | [], _ => rfl
  | b :: m, h => by rw [List.orderedInsert, if_pos (h b (List.mem_cons_self b m))]

theorem filter_orderedInsert_neg {α : Type} (r : α → α → Prop) [DecidableRel r]
    (p : α → Bool) (x : α) (hx : p x = false) :
    ∀ m : List α, (List.orderedInsert r x m).filter p = m.filter p
  | [] => by simp [List.orderedInsert, List.filter_cons, hx]
  | b :: m => by
    by_cases hr : r x b
    · simp [List.orderedInsert, hr, List.filter_cons, hx]
    · simp only [List.orderedInsert, hr, if_false, List.filter_cons,
        filter_orderedInsert_neg r p x hx m]

theorem filter_orderedInsert_pos {α : Type} (r : α → α → Prop) [DecidableRel r]
    [IsTrans α r] (p : α → Bool) (x : α) (hx : p x = true) :
    ∀ m : List α, m.Sorted r →
      (List.orderedInsert r x m).filter p = List.orderedInsert r x (m.filter p)
  | [], _ => by simp [List.orderedInsert, hx]
  | b :: m, hs => by
    have ih := filter_orderedInsert_pos r p x hx m hs.of_cons
    by_cases hr : r x b
    · by_cases hpb : p b
      · simp [List.orderedInsert, hr, hpb, hx, List.filter_cons]
      · have hall : ∀ y ∈ m.filter p, r x y := fun y hy =>
          IsTrans.trans x b y hr (List.rel_of_sorted_cons hs y (List.mem_of_mem_filter hy))
        simp [List.orderedInsert, hr, hpb, hx, List.filter_cons,
          orderedInsert_eq_cons r x _ hall]
    · by_cases hpb : p b
      · simp [List.orderedInsert, hr, hpb, hx, List.filter_cons, ih]
      · simp [List.orderedInsert, hr, hpb, hx, List.filter_cons, ih]

theorem filter_insertionSort_comm {α : Type} (r : α → α → Prop) [DecidableRel r]
    [IsTotal α r] [IsTrans α r] (p : α → Bool) :
    ∀ l : List α,
      (List.insertionSort r l).filter p = List.insertionSort r (l.filter p)
  | [] => rfl
  | a :: l => by
    by_cases hpa : p a
    · rw [List.insertionSort,
        filter_orderedInsert_pos r p a hpa _ (List.sorted_insertionSort r l),
        filter_insertionSort_comm r p l, List.filter_cons]
      simp [hpa, List.insertionSort]
    · rw [List.insertionSort,
        filter_orderedInsert_neg r p a (Bool.not_eq_true _ ▸ hpa) _,
        filter_insertionSort_comm r p l, List.filter_cons]
      simp [hpa]

theorem filterMap_eq_filterMap_filter {α β : Type} (f : α → Option β) :
    ∀ l : List α, l.filterMap f = (l.filter fun x => (f x).isSome).filterMap f
  | [] => rfl
  | a :: l => by
    cases ha : f a with
    | none =>
      simp [List.filterMap_cons, List.filter_cons, ha,
        filterMap_eq_filterMap_filter f l]
    | some b =>
      simp [List.filterMap_cons, List.filter_cons, ha,
        filterMap_eq_filterMap_filter f l]

/-- Dropping a filtered-out case anywhere in the list leaves the mapped
status sequence unchanged. -/
theorem cases_status_erase (c : VerificationCase) (hc : kycCaseStatus c = none)
    (l1 l2 : List VerificationCase) :
    (List.insertionSort byRecency (l1 ++ c :: l2)).filterMap kycCaseStatus =
    (List.insertionSort byRecency (l1 ++ l2)).filterMap kycCaseStatus := by
  have hfil : ((l1 ++ c :: l2).filter fun x => (kycCaseStatus x).isSome) =
      ((l1 ++ l2).filter fun x => (kycCaseStatus x).isSome) := by
    rw [List.filter_append, List.filter_append, List.filter_cons]
    simp [hc]
  rw [filterMap_eq_filterMap_filter kycCaseStatus
        (List.insertionSort byRecency (l1 ++ c :: l2)),
      filter_insertionSort_comm, hfil, ← filter_insertionSort_comm,
      ← filterMap_eq_filterMap_filter]

/-! ### Borsh reader lemmas -/

theorem readChunk_append (bs : List Nat) :
    ∀ rest : List Nat, readChunk bs.length (bs ++ rest) = some (bs, rest) := by
  induction bs with
  | nil => intro rest; rfl
  | cons b bs ih =>
    intro rest
    simp only [List.length_cons, List.cons_append, readChunk, List.append_eq,
      ih rest]

theorem readU32_u32le (n : Nat) (h : n < 4294967296) (rest : List Nat) :
    readU32 (u32le n ++ rest) = some (n, rest) := by
  simp only [u32le, List.cons_append, List.nil_append, readU32,
    Option.some.injEq, Prod.mk.injEq, and_true]
  omega

theorem readU64_u64le (n : Nat) (h : n < 18446744073709551616) (rest : List Nat) :
    readU64 (u64le n ++ rest) = some (n, rest) := by
  simp only [u64le, List.cons_append, List.nil_append, readU64,
    Option.some.injEq, Prod.mk.injEq, and_true]
  omega

theorem readBytes_encodeBytes (bs : List Nat) (h : bs.length < 4294967296)
    (rest : List Nat) : readBytes (encodeBytes bs ++ rest) = some (bs, rest) := by
  simp only [readBytes, encodeBytes, List.append_assoc, readU32_u32le _ h,
    Option.some_bind, readChunk_append]

theorem readBool_encodeBool (b : Bool) (rest : List Nat) :
    readBool (encodeBool b ++ rest) = some (b, rest) := by
  cases b <;> rfl

theorem readToken_append (t : VerifiedAccountToken)
    (h1 : t.claimer.length < 4294967296)
    (h2 : t.ext_account.length < 4294967296)
    (h3 : t.timestamp < 18446744073709551616) (rest : List Nat) :
    readToken (t.try_to_vec ++ rest) = some (t, rest) := by
  simp only [readToken, VerifiedAccountToken.try_to_vec, List.append_assoc,
    readBytes_encodeBytes _ h1, readBytes_encodeBytes _ h2, Option.some_bind,
    readU64_u64le _ h3, readBool_encodeBool]
theorem readU32_sound {s : List Nat} {n : Nat} {rest : List Nat}
    (hb : ∀ b ∈ s, b < 256) (h : readU32 s = some (n, rest)) :
    s = u32le n ++ rest ∧ n < 4294967296 := by
  match s, h with
  | b0 :: b1 :: b2 :: b3 :: r, h =>
    simp only [readU32, Option.some.injEq, Prod.mk.injEq] at h
    obtain ⟨hn, hr⟩ := h
    have h0 : b0 < 256 := hb b0 (by simp)
    have h1 : b1 < 256 := hb b1 (by simp)
    have h2 : b2 < 256 := hb b2 (by simp)
    have h3 : b3 < 256 := hb b3 (by simp)
    subst hn hr
    simp only [u32le, List.cons_append, List.nil_append, List.cons.injEq,
      and_true]
    refine ⟨⟨?_, ?_, ?_, ?_⟩, ?_⟩ <;> omega

theorem readU64_sound {s : List Nat} {n : Nat} {rest : List Nat}
    (hb : ∀ b ∈ s, b < 256) (h : readU64 s = some (n, rest)) :
    s = u64le n ++ rest ∧ n < 18446744073709551616 := by
  match s, h with
  | b0 :: b1 :: b2 :: b3 :: b4 :: b5 :: b6 :: b7 :: r, h =>
    simp only [readU64, Option.some.injEq, Prod.mk.injEq] at h
    obtain ⟨hn, hr⟩ := h
    have h0 : b0 < 256 := hb b0 (by simp)
    have h1 : b1 < 256 := hb b1 (by simp)
    have h2 : b2 < 256 := hb b2 (by simp)
    have h3 : b3 < 256 := hb b3 (by simp)
    have h4 : b4 < 256 := hb b4 (by simp)
    have h5 : b5 < 256 := hb b5 (by simp)
    have h6 : b6 < 256 := hb b6 (by simp)
    have h7 : b7 < 256 := hb b7 (by simp)
    subst hn hr
    simp only [u64le, List.cons_append, List.nil_append, List.cons.injEq,
      and_true]
    refine ⟨⟨?_, ?_, ?_, ?_, ?_, ?_, ?_, ?_⟩, ?_⟩ <;> omega

theorem readChunk_sound :
    ∀ (n : Nat) (s xs rest : List Nat), readChunk n s = some (xs, rest) →
      s = xs ++ rest ∧ xs.length = n
  | 0, s, xs, rest, h => by
    simp only [readChunk, Option.some.injEq, Prod.mk.injEq] at h
    obtain ⟨rfl, rfl⟩ := h
    simp
  | n + 1, [], xs, rest, h => by cases h
  | n + 1, b :: bs, xs, rest, h => by
    simp only [readChunk] at h
    cases hc : readChunk n bs with
    | none => rw [hc] at h; cases h
    | some p =>
      obtain ⟨xs', r'⟩ := p
      rw [hc] at h
      simp only [Option.some.injEq, Prod.mk.injEq] at h
      obtain ⟨rfl, rfl⟩ := h
      obtain ⟨hs, hl⟩ := readChunk_sound n bs xs' r' hc
      constructor
      · rw [hs]
        rfl
      · simp [hl]

theorem readBytes_sound {s xs rest : List Nat}
    (hb : ∀ b ∈ s, b < 256) (h : readBytes s = some (xs, rest)) :
    s = encodeBytes xs ++ rest ∧ xs.length < 4294967296 := by
  unfold readBytes at h
  cases hu : readU32 s with
  | none => rw [hu] at h; cases h
  | some p =>
    rw [hu] at h
    obtain ⟨n, r1⟩ := p
    simp only [Option.some_bind] at h
    obtain ⟨hs, hn⟩ := readU32_sound hb hu
    obtain ⟨hr1, hlen⟩ := readChunk_sound n r1 xs rest h
    subst hr1 hlen
    exact ⟨by rw [hs, encodeBytes, List.append_assoc], hn⟩

theorem readBool_sound {s : List Nat} {b : Bool} {rest : List Nat}
    (h : readBool s = some (b, rest)) : s = encodeBool b ++ rest := by
  match s, h with
  | 0 :: r, h =>
    simp only [readBool, Option.some.injEq, Prod.mk.injEq] at h
    obtain ⟨rfl, rfl⟩ := h
    rfl
  | 1 :: r, h =>
    simp only [readBool, Option.some.injEq, Prod.mk.injEq] at h
    obtain ⟨rfl, rfl⟩ := h
    rfl
theorem readToken_sound {s : List Nat} {t : VerifiedAccountToken}
    {rem : List Nat} (hb : ∀ b ∈ s, b < 256)
    (h : readToken s = some (t, rem)) :
    s = t.try_to_vec ++ rem ∧ t.claimer.length < 4294967296 ∧
      t.ext_account.length < 4294967296 ∧
      t.timestamp < 18446744073709551616 := by
  unfold readToken at h
  cases h1 : readBytes s with
  | none => rw [h1] at h; cases h
  | some p1 =>
    obtain ⟨claimer, r1⟩ := p1
    rw [h1] at h
    simp only [Option.some_bind] at h
    obtain ⟨hs1, hc1⟩ := readBytes_sound hb h1
    have hb1 : ∀ b ∈ r1, b < 256 := fun b hb' =>
      hb b (by rw [hs1]; exact List.mem_append_right _ hb')
    cases h2 : readBytes r1 with
    | none => rw [h2] at h; cases h
    | some p2 =>
      obtain ⟨ext, r2⟩ := p2
      rw [h2] at h
      simp only [Option.some_bind] at h
      obtain ⟨hs2, hc2⟩ := readBytes_sound hb1 h2
      have hb2 : ∀ b ∈ r2, b < 256 := fun b hb' =>
        hb1 b (by rw [hs2]; exact List.mem_append_right _ hb')
      cases h3 : readU64 r2 with
      | none => rw [h3] at h; cases h
      | some p3 =>
        obtain ⟨ts, r3⟩ := p3
        rw [h3] at h
        simp only [Option.some_bind] at h
        obtain ⟨hs3, hc3⟩ := readU64_sound hb2 h3
        cases h4 : readBool r3 with
        | none => rw [h4] at h; cases h
        | some p4 =>
          obtain ⟨kyc, r4⟩ := p4
          rw [h4] at h
          simp only [Option.some_bind, Option.some.injEq, Prod.mk.injEq] at h
          obtain ⟨rfl, rfl⟩ := h
          have hs4 := readBool_sound h4
          refine ⟨?_, hc1, hc2, hc3⟩
          rw [hs1, hs2, hs3, hs4]
          simp [VerifiedAccountToken.try_to_vec]

theorem u32le_bytes (n : Nat) : ∀ b ∈ u32le n, b < 256 := by
  intro b hb
  simp only [u32le, List.mem_cons, List.not_mem_nil, or_false] at hb
  rcases hb with h | h | h | h <;> subst h <;> omega

theorem u64le_bytes (n : Nat) : ∀ b ∈ u64le n, b < 256 := by
  intro b hb
  simp only [u64le, List.mem_cons, List.not_mem_nil, or_false] at hb
  rcases hb with h | h | h | h | h | h | h | h <;> subst h <;> omega

theorem encodeBool_bytes (b : Bool) : ∀ x ∈ encodeBool b, x < 256 := by
  intro x hx
  cases b <;> simp [encodeBool] at hx <;> omega

theorem try_to_vec_bytes {t : VerifiedAccountToken} (hv : ValidToken t) :
    ∀ b ∈ t.try_to_vec, b < 256 := by
  obtain ⟨h1, hb1, h2, hb2, h3⟩ := hv
  intro b hb
  simp only [VerifiedAccountToken.try_to_vec, encodeBytes,
    List.append_assoc, List.mem_append] at hb
  rcases hb with h | h | h | h | h | h
  · exact u32le_bytes _ b h
  · exact hb1 b h
  · exact u32le_bytes _ b h
  · exact hb2 b h
  · exact u64le_bytes _ b h
  · exact encodeBool_bytes _ b h

/-- C4: a case contributes to KYC status resolution only if its level-tag
set contains both `basic` and `liveness` and its details report
`liveness = true`; any other case — even an approved one — is mapped to
`None` and its removal leaves the result of `get_kyc_status` unchanged. -/
theorem c4_eligibility_filter (c : VerificationCase) :
    (kycCaseStatus c = none ↔
      ¬(VerificationLevel.basic ∈ c.level ∧ VerificationLevel.liveness ∈ c.level ∧
        c.details.liveness = true)) ∧
    (∀ (u : User) (l1 l2 : List VerificationCase), kycCaseStatus c = none →
      u.verification_cases = l1 ++ c :: l2 →
      u.get_kyc_status.1 =
        ({ u with verification_cases := l1 ++ l2 } : User).get_kyc_status.1) := by
  refine ⟨kycCaseStatus_eq_none_iff c, fun u l1 l2 hc he => ?_⟩
  exact get_kyc_status_fst_congr (by rw [he]; exact cases_status_erase c hc l1 l2)

/-- Witness for C4: a case tagged only `basic`, though `done`+`approved`
with passing liveness details, is dropped, and the profile evaluates as if
it were absent. -/
theorem c4_witness :
    kycCaseStatus (sampleCase 5 [VerificationLevel.basic] VerificationStatus.done
      CredentialStatus.approved true) = none ∧
    (sampleUser [sampleCase 5 [VerificationLevel.basic] VerificationStatus.done
      CredentialStatus.approved true]).get_kyc_status.1 =
      (sampleUser []).get_kyc_status.1 :=
  ⟨(c4_eligibility_filter _).1.mpr (by decide),
   (c4_eligibility_filter _).2 (sampleUser [sampleCase 5 [VerificationLevel.basic]
       VerificationStatus.done CredentialStatus.approved true]) [] []
     ((c4_eligibility_filter _).1.mpr (by decide)) rfl⟩

/-- C9: `get_kyc_status` never inspects a case's lifecycle status:
reassigning every case's `status` field arbitrarily (in particular moving
it between `pending`, `contacted` and `done`) leaves the resolved KYC
status unchanged. -/
theorem c9_status_never_inspected (u : User)
    (f : VerificationCase → VerificationStatus) :
    ({ u with verification_cases := u.verification_cases.map (fun c => { c with status := f c }) } : User).get_kyc_status.1 =
      u.get_kyc_status.1 := by
  apply get_kyc_status_fst_congr
  have hmap := List.map_insertionSort byRecency byRecency
    (fun c => ({ c with status := f c } : VerificationCase))
    u.verification_cases (fun a _ b _ => Iff.rfl)
  calc (List.insertionSort byRecency (u.verification_cases.map
          (fun c => { c with status := f c }))).filterMap kycCaseStatus
      = ((List.insertionSort byRecency u.verification_cases).map
          (fun c => { c with status := f c })).filterMap kycCaseStatus := by
        rw [hmap]
    _ = (List.insertionSort byRecency u.verification_cases).filterMap
          kycCaseStatus := by
        rw [List.filterMap_map]
        rfl

/-- C7: decoding is the exact left inverse of the canonical borsh encoding
on valid payloads, and `try_from_slice` rejects both over-long inputs
(trailing bytes after the payload) and truncated inputs (strict leading
parts of the encoding) with a format error (`none`). -/
theorem c7_canonical_roundtrip (t : VerifiedAccountToken) (hv : ValidToken t) :
    VerifiedAccountToken.try_from_slice t.try_to_vec = some t ∧
    (∀ extra : List Nat, extra ≠ [] →
      VerifiedAccountToken.try_from_slice (t.try_to_vec ++ extra) = none) ∧
    (∀ s extra : List Nat, s ++ extra = t.try_to_vec → extra ≠ [] →
      VerifiedAccountToken.try_from_slice s = none) := by
  obtain ⟨h1, hb1, h2, hb2, h3⟩ := hv
  have hfull : readToken t.try_to_vec = some (t, []) := by
    have := readToken_append t h1 h2 h3 []
    rwa [List.append_nil] at this
  refine ⟨?_, ?_, ?_⟩
  · unfold VerifiedAccountToken.try_from_slice
    rw [hfull]
  · intro extra hne
    unfold VerifiedAccountToken.try_from_slice
    rw [readToken_append t h1 h2 h3 extra]
    cases extra with
    | nil => exact absurd rfl hne
    | cons e es => rfl
  · intro s extra heq hne
    cases hrt : readToken s with
    | none =>
      unfold VerifiedAccountToken.try_from_slice
      rw [hrt]
    | some p =>
      obtain ⟨t', rem⟩ := p
      cases rem with
      | cons e es =>
        unfold VerifiedAccountToken.try_from_slice
        rw [hrt]
      | nil =>
        exfalso
        have hbs : ∀ b ∈ s, b < 256 := fun b hb =>
          try_to_vec_bytes ⟨h1, hb1, h2, hb2, h3⟩ b
            (heq ▸ List.mem_append_left extra hb)
        obtain ⟨hs, hc1', hc2', hc3'⟩ := readToken_sound hbs hrt
        rw [List.append_nil] at hs
        subst hs
        have := readToken_append t' hc1' hc2' hc3' extra
        rw [heq, hfull] at this
        simp only [Option.some.injEq, Prod.mk.injEq] at this
        exact hne this.2.symm

/-- Witness for C7: a concrete valid payload round-trips, and a trailing
byte is rejected. -/
theorem c7_witness :
    VerifiedAccountToken.try_from_slice
      (VerifiedAccountToken.try_to_vec ⟨[116], [97, 98], 99, true⟩) =
      some ⟨[116], [97, 98], 99, true⟩ ∧
    VerifiedAccountToken.try_from_slice
      (VerifiedAccountToken.try_to_vec ⟨[116], [97, 98], 99, true⟩ ++ [0]) =
      none :=
  ⟨(c7_canonical_roundtrip ⟨[116], [97, 98], 99, true⟩ (by decide)).1,
   (c7_canonical_roundtrip ⟨[116], [97, 98], 99, true⟩ (by decide)).2.1 [0]
     (by decide)⟩

/-- C8 (amended): the evaluator is total and deterministic — the status and
updated profile are a function of the input profile alone — but it is not
mutation-free: its one side effect is reordering the stored
verification-case list into the stable descending last-update order. The
sorted list is a permutation of the input cases (no case is added, removed
or modified) and every other profile field is unchanged. -/
theorem c8_evaluator_effect (u : User) :
    u.get_kyc_status.2.verification_cases =
      List.insertionSort byRecency u.verification_cases ∧
    u.get_kyc_status.2.verification_cases.Perm u.verification_cases ∧
    u.get_kyc_status.2.uid = u.uid ∧
    u.get_kyc_status.2.emails = u.emails ∧
    u.get_kyc_status.2.phones = u.phones ∧
    u.get_kyc_status.2.wallets = u.wallets :=
  ⟨rfl, List.perm_insertionSort byRecency u.verification_cases,
   rfl, rfl, rfl, rfl⟩

/-- C8 counterexample: `get_kyc_status` does not leave the input collection
of verification cases unchanged — on a profile whose two cases are stored
oldest-first, the in-place sort visibly reorders `verification_cases`. -/
theorem c8_counterexample :
    (sampleUser
        [sampleCase 1 [] VerificationStatus.done CredentialStatus.pending false,
         sampleCase 2 [] VerificationStatus.done CredentialStatus.pending false]).get_kyc_status.2 ≠
      sampleUser
        [sampleCase 1 [] VerificationStatus.done CredentialStatus.pending false,
         sampleCase 2 [] VerificationStatus.done CredentialStatus.pending false] := by
  decide

end VerificationOracle
